import Mathlib

/-!
Verification of the kusatsu ephemeral upload/storage engine.

This file shallowly embeds the core of the kusatsu repository:
the envelope-encryption service (kusatsu-encrypt/src/lib.rs), the chunk
store (kusatsu-backend/src/chunk_storage.rs), the sharded file store
(kusatsu-backend/src/storage.rs), the upload-session and file-record
operations (kusatsu-backend/src/database.rs, kusatsu-entity/src/file.rs,
kusatsu-entity/src/upload_session.rs) and the HTTP handlers that drive
them (kusatsu-backend/src/handlers.rs).  Machine integers are embedded
as unbounded integers except where overflow matters (the `as i32` cast
in `start_chunked_upload`, modelled by explicit saturation); byte
strings are lists of naturals; fallible code returns `Except`.
-/

/-- Bytes of a buffer, mirroring Rust `Vec<u8>` (byte values are kept as
naturals; no arithmetic is performed on them). -/
abbrev Bytes := List ℕ

/-- Error enumeration of `kusatsu-encrypt/src/lib.rs` (`EncryptionError`).
The payload of `Base64Error` is kept as a string. -/
inductive EncryptionError where
  | EncryptionFailed : EncryptionError
  | DecryptionFailed : EncryptionError
  | InvalidKeyFormat : EncryptionError
  | InvalidNonceLength : EncryptionError
  | Base64Error : String → EncryptionError
deriving DecidableEq, Repr

/-- Error enumeration of `kusatsu-backend/src/error.rs` (`AppError`).
Payload-carrying I/O and database variants keep a string message. -/
inductive AppError where
  | DatabaseError : String → AppError
  | FileNotFound : AppError
  | FileExpired : AppError
  | DownloadLimitExceeded : AppError
  | FileTooLarge : AppError
  | InvalidFileFormat : AppError
  | IoError : String → AppError
  | JsonError : String → AppError
  | ConfigError : String → AppError
  | ServerError : String → AppError
  | BadRequest : String → AppError
  | InternalServerError : AppError
deriving DecidableEq, Repr

namespace Encrypt

/-- Modelled from the spec: the `aes_gcm` crate's `Aes256Gcm` AEAD seal
operation, which is external to the repository.  Per spec section 4.4 the
scheme is symmetric authenticated encryption with a 256-bit key and a
96-bit nonce whose decryption "fails closed on any tamper or wrong-key
attempt" via the authentication tag.  The ideal model appends an
authentication tag determined by the key and the nonce to the plaintext,
so that opening under any other key (or after any tamper of the tag)
fails, and opening under the sealing key recovers the plaintext exactly;
the negligible forgery probability of the real AEAD is idealized to
zero. -/
def aeadSeal (key nonce data : Bytes) : Bytes :=
  data ++ key ++ nonce

/-- Modelled from the spec: the `aes_gcm` crate's `Aes256Gcm` AEAD open
operation (see `aeadSeal`).  Splits off the trailing tag and verifies it
against the supplied key and nonce; any mismatch yields the single
opaque failure `none`. -/
def aeadOpen (key nonce ct : Bytes) : Option Bytes :=
  if key.length + nonce.length ≤ ct.length ∧
      ct.drop (ct.length - (key.length + nonce.length)) = key ++ nonce then
    some (ct.take (ct.length - (key.length + nonce.length)))
  else
    none

/-- Encrypted payload of `kusatsu-encrypt/src/lib.rs` (`EncryptedData`):
a ciphertext together with the nonce used to produce it. -/
structure EncryptedData where
  ciphertext : Bytes
  nonce : Bytes
deriving DecidableEq, Repr

/-- Embedding of `Encryption::encrypt` (kusatsu-encrypt/src/lib.rs,
lines 82-97).  The source draws a fresh random 96-bit nonce from `OsRng`
on every call; randomness is embedded by passing the drawn nonce as an
explicit argument.  The returned pair carries the ciphertext and that
nonce. -/
def encrypt (nonce : Bytes) (data : Bytes) (key : Bytes) : EncryptedData :=
  { ciphertext := aeadSeal key nonce data, nonce := nonce }

/-- Embedding of `Encryption::decrypt` (kusatsu-encrypt/src/lib.rs,
lines 100-118): rejects a nonce whose length is not 12 bytes, then opens
the ciphertext, mapping tag failure to `DecryptionFailed`. -/
def decrypt (ed : EncryptedData) (key : Bytes) : Except EncryptionError Bytes :=
  if ed.nonce.length ≠ 12 then
    .error .InvalidNonceLength
  else
    match aeadOpen key ed.nonce ed.ciphertext with
    | some pt => .ok pt
    | none => .error .DecryptionFailed

end Encrypt

/-- UTF-8 bytes of a string, mirroring Rust `str::as_bytes`. -/
def strBytes (s : String) : Bytes :=
  s.toUTF8.toList.map (fun b => b.toNat)

namespace FileEntity

/-- Embedding of the `files` row model (kusatsu-entity/src/file.rs,
`Model`).  UUIDs are embedded as opaque naturals, timestamps as
integers. -/
structure Model where
  id : ℤ
  file_id : ℕ
  original_size : ℤ
  encrypted_size : ℤ
  mime_type : Option String
  file_path : String
  nonce : Bytes
  encrypted_filename : Bytes
  filename_nonce : Bytes
  created_at : ℤ
  expires_at : Option ℤ
  download_count : ℤ
  max_downloads : Option ℤ
deriving DecidableEq, Repr

/-- Embedding of `Model::is_expired` (kusatsu-entity/src/file.rs, lines
65-72): the current time, drawn from the clock in the source, is passed
as the explicit argument `now`. -/
def Model.is_expired (m : Model) (now : ℤ) : Bool :=
  match m.expires_at with
  | some expires_at => decide (expires_at < now)
  | none => false

/-- Embedding of `Model::is_download_limit_reached`
(kusatsu-entity/src/file.rs, lines 74-81). -/
def Model.is_download_limit_reached (m : Model) : Bool :=
  match m.max_downloads with
  | some max_downloads => decide (max_downloads ≤ m.download_count)
  | none => false

/-- Embedding of `Model::is_accessible` (kusatsu-entity/src/file.rs,
lines 83-87). -/
def Model.is_accessible (m : Model) (now : ℤ) : Bool :=
  !(m.is_expired now) && !m.is_download_limit_reached

end FileEntity

namespace UploadSessionEntity

/-- Embedding of the `upload_sessions` row model
(kusatsu-entity/src/upload_session.rs, `Model`). -/
structure Model where
  id : ℤ
  upload_id : ℕ
  filename : String
  mime_type : Option String
  total_size : ℤ
  total_chunks : ℤ
  uploaded_chunks : ℤ
  chunk_size : ℤ
  expires_in_hours : Option ℤ
  max_downloads : Option ℤ
  created_at : ℤ
  expires_at : ℤ
deriving DecidableEq, Repr

/-- Embedding of `Model::is_expired`
(kusatsu-entity/src/upload_session.rs, lines 63-66). -/
def Model.is_expired (m : Model) (now : ℤ) : Bool :=
  decide (m.expires_at < now)

/-- Embedding of `Model::is_complete`
(kusatsu-entity/src/upload_session.rs, lines 68-71). -/
def Model.is_complete (m : Model) : Bool :=
  decide (m.total_chunks ≤ m.uploaded_chunks)

/-- Embedding of `Model::progress`
(kusatsu-entity/src/upload_session.rs, lines 73-80).  The source divides
in `f32`; the quotient is embedded as the exact rational (the claims
compare progress values whose numerator and denominator coincide, for
which the two semantics agree). -/
def Model.progress (m : Model) : ℚ :=
  if m.total_chunks = 0 then 0
  else (m.uploaded_chunks : ℚ) / (m.total_chunks : ℚ)

end UploadSessionEntity

/-- Metadata store holding the `files` table, keyed by `file_id`. -/
def FileDB := ℕ → Option FileEntity.Model

/-- Metadata store holding the `upload_sessions` table, keyed by
`upload_id`. -/
def SessionDB := ℕ → Option UploadSessionEntity.Model

namespace file_ops

/-- Embedding of `file_ops::get_file_by_id`
(kusatsu-backend/src/database.rs, lines 121-131). -/
def get_file_by_id (db : FileDB) (file_id : ℕ) : Option FileEntity.Model :=
  db file_id

/-- Embedding of `file_ops::increment_download_count`
(kusatsu-backend/src/database.rs, lines 133-146): finds the row by
`file_id`; when present, writes back the read value plus one; when
absent, returns success with the store untouched. -/
def increment_download_count (db : FileDB) (file_id : ℕ) :
    Except AppError Unit × FileDB :=
  match db file_id with
  | none => (.ok (), db)
  | some file =>
      (.ok (), fun x =>
        if x = file_id then
          some { file with download_count := file.download_count + 1 }
        else db x)

/-- Parameters of `file_ops::create_unencrypted_file_record`
(kusatsu-backend/src/database.rs, `CreateUnencryptedFileParams`). -/
structure CreateUnencryptedFileParams where
  file_id : ℕ
  original_size : ℤ
  mime_type : Option String
  file_path : String
  filename : String
  expires_at : Option ℤ
  max_downloads : Option ℤ

/-- Embedding of `file_ops::create_unencrypted_file_record`
(kusatsu-backend/src/database.rs, lines 99-119): the inserted row
carries an empty nonce, the plain filename bytes in
`encrypted_filename`, an empty filename nonce, and the original size
duplicated as the encrypted size.  The database-assigned row id and the
insertion time are passed explicitly. -/
def create_unencrypted_file_record (rowId now : ℤ)
    (params : CreateUnencryptedFileParams) : FileEntity.Model :=
  { id := rowId
    file_id := params.file_id
    original_size := params.original_size
    encrypted_size := params.original_size
    mime_type := params.mime_type
    file_path := params.file_path
    nonce := []
    encrypted_filename := strBytes params.filename
    filename_nonce := []
    created_at := now
    expires_at := params.expires_at
    download_count := 0
    max_downloads := params.max_downloads }

end file_ops

namespace upload_session_ops

/-- Embedding of `upload_session_ops::get_upload_session_by_id`
(kusatsu-backend/src/database.rs, lines 236-246). -/
def get_upload_session_by_id (db : SessionDB) (upload_id : ℕ) :
    Option UploadSessionEntity.Model :=
  db upload_id

/-- Embedding of `upload_session_ops::increment_uploaded_chunks`
(kusatsu-backend/src/database.rs, lines 248-265) run in isolation: the
source SELECTs the row, adds one to the value it read, and UPDATEs the
row with that sum.  This definition is the sequential (single-caller)
semantics; the interleaved two-caller semantics of the same
read-then-write pair is `IncrementRace.run`. -/
def increment_uploaded_chunks (db : SessionDB) (upload_id : ℕ) :
    Except AppError UploadSessionEntity.Model × SessionDB :=
  match db upload_id with
  | none => (.error (.BadRequest "Upload session not found"), db)
  | some session =>
      let updated := { session with
        uploaded_chunks := session.uploaded_chunks + 1 }
      (.ok updated, fun x => if x = upload_id then some updated else db x)

end upload_session_ops

namespace ChunkStorage

/-- On-disk chunk namespace of one upload session: the blob stored under
`chunks/<upload_id>/chunk_<index>` for each index, `none` when the path
does not exist (kusatsu-backend/src/chunk_storage.rs).  Indices carry
the source's `i32` type, embedded as ℤ. -/
def Store := ℤ → Option Bytes

/-- Embedding of `ChunkStorage::store_chunk`
(kusatsu-backend/src/chunk_storage.rs, lines 46-74): creates the parent
directory as needed and writes the blob at the chunk's path. -/
def store_chunk (store : Store) (chunk_number : ℤ) (chunk_data : Bytes) :
    Store :=
  fun x => if x = chunk_number then some chunk_data else store x

/-- Embedding of `ChunkStorage::chunk_exists`
(kusatsu-backend/src/chunk_storage.rs, lines 77-80). -/
def chunk_exists (store : Store) (chunk_number : ℤ) : Bool :=
  (store chunk_number).isSome

/-- Iteration order of `assemble_chunks`: the indices
`0..total_chunks` ascending, as produced by the source's range loop. -/
def rangeInts (n : ℤ) : List ℤ :=
  (List.range n.toNat).map (fun k : ℕ => (k : ℤ))

/-- Loop body of `ChunkStorage::assemble_chunks` over an explicit index
list: a missing index aborts with the source's "Missing chunk" error
naming that index, otherwise the blob is appended to the accumulated
output. -/
def assembleChunksAux (store : Store) (uploadId : String) :
    List ℤ → Except AppError Bytes
  | [] => .ok []
  | i :: rest =>
    match store i with
    | none =>
        .error (.BadRequest
          ("Missing chunk " ++ toString i ++ " for upload " ++ uploadId))
    | some chunk_data =>
        (assembleChunksAux store uploadId rest).map
          (fun acc => chunk_data ++ acc)

/-- Embedding of `ChunkStorage::assemble_chunks`
(kusatsu-backend/src/chunk_storage.rs, lines 95-123): reads indices
`0..total_chunks` strictly ascending, concatenating the chunk bytes. -/
def assemble_chunks (store : Store) (uploadId : String)
    (total_chunks : ℤ) : Except AppError Bytes :=
  assembleChunksAux store uploadId (rangeInts total_chunks)

end ChunkStorage

/-- Split of a byte sequence into consecutive chunks of `cs` bytes, the
last possibly shorter: the byte ranges `[index*cs, index*cs+len)` that a
chunked upload client stores one by one (spec section 3, "Chunk"). -/
def chunkSplit (cs : ℕ) (data : Bytes) : List Bytes :=
  if h : cs = 0 ∨ data = [] then []
  else data.take cs :: chunkSplit cs (data.drop cs)
termination_by data.length
decreasing_by
  push_neg at h
  simp only [List.length_drop]
  have : data.length ≠ 0 := fun hz => h.2 (List.length_eq_zero.mp hz)
  omega

/-- Chunk store holding exactly the chunks of a split, chunk `i` at
index `i`. -/
def storeOfChunks (chunks : List Bytes) : ChunkStorage.Store :=
  fun i => if i < 0 then none else chunks.get? i.toNat

/-- Response payload of a chunk upload (kusatsu-types/src/lib.rs,
`ChunkUploadResponse`); `progress` is embedded as in
`UploadSessionEntity.Model.progress`. -/
structure ChunkUploadResponse where
  chunk_number : ℤ
  uploaded_chunks : ℤ
  total_chunks : ℤ
  progress : ℚ
deriving DecidableEq, Repr

/-- Embedding of the handler `upload_chunk`
(kusatsu-backend/src/handlers.rs, lines 237-352): looks up the session;
rejects expired, complete, and out-of-range requests; returns the
current progress untouched when the chunk already exists on disk;
otherwise validates the chunk length (the last index expects the
remaining bytes, every earlier index exactly `chunk_size`), writes the
chunk, and increments the session's uploaded-chunk counter.  The
multipart body is embedded as `chunk_data` (`none` when the field is
absent); the pair returned carries the handler outcome together with
the resulting session store and chunk store. -/
def upload_chunk (now : ℤ) (db : SessionDB) (store : ChunkStorage.Store)
    (upload_id : ℕ) (chunk_number : ℤ) (chunk_data : Option Bytes) :
    Except AppError ChunkUploadResponse × (SessionDB × ChunkStorage.Store) :=
  match upload_session_ops.get_upload_session_by_id db upload_id with
  | none => (.error (.BadRequest "Upload session not found"), (db, store))
  | some session =>
    if session.is_expired now then
      (.error (.BadRequest "Upload session has expired"), (db, store))
    else if session.is_complete then
      (.error (.BadRequest "Upload is already complete"), (db, store))
    else if chunk_number < 0 ∨ session.total_chunks ≤ chunk_number then
      (.error (.BadRequest "Invalid chunk number"), (db, store))
    else if ChunkStorage.chunk_exists store chunk_number then
      (.ok { chunk_number := chunk_number
             uploaded_chunks := session.uploaded_chunks
             total_chunks := session.total_chunks
             progress := session.progress }, (db, store))
    else
      match chunk_data with
      | none => (.error (.BadRequest "Missing chunk data"), (db, store))
      | some data =>
        let expected_size : ℤ :=
          if chunk_number = session.total_chunks - 1 then
            session.total_size - chunk_number * session.chunk_size
          else session.chunk_size
        if (data.length : ℤ) ≠ expected_size then
          (.error (.BadRequest ("Invalid chunk size: expected "
            ++ toString expected_size ++ ", got "
            ++ toString (data.length : ℤ))), (db, store))
        else
          let store' := ChunkStorage.store_chunk store chunk_number data
          match upload_session_ops.increment_uploaded_chunks db upload_id with
          | (.error e, db') => (.error e, (db', store'))
          | (.ok updated, db') =>
            (.ok { chunk_number := chunk_number
                   uploaded_chunks := updated.uploaded_chunks
                   total_chunks := updated.total_chunks
                   progress := updated.progress }, (db', store'))

/-- Embedding of `FileStorage::retrieve_file`
(kusatsu-backend/src/storage.rs, lines 78-92): the disk content under
the storage root is the function `fsDisk` from relative path to bytes;
a missing file is the distinct `FileNotFound` outcome. -/
def retrieve_file (fsDisk : String → Option Bytes) (path : String) :
    Except AppError Bytes :=
  match fsDisk path with
  | none => .error .FileNotFound
  | some data => .ok data

/-- Body of `download_file_form` computing the served bytes and
filename (kusatsu-backend/src/handlers.rs, lines 508-564): branches on
whether the record's nonce is empty.  Non-empty nonce: the caller's key
is base64-decoded, the file bytes are read and decrypted, the stored
filename is decrypted, each decryption failure mapping to an "invalid
encryption key" bad request regardless of its cause.  Empty nonce: a
non-empty caller key is rejected, the bytes are read as stored, and the
`encrypted_filename` bytes are decoded as plain UTF-8. -/
def downloadPayload (fsDisk : String → Option Bytes)
    (decodeKey : String → Option Bytes) (utf8 : Bytes → Option String)
    (file : FileEntity.Model) (encryption_key : String) :
    Except AppError (Bytes × String) :=
  let is_encrypted := !file.nonce.isEmpty
  if is_encrypted then
    match decodeKey encryption_key with
    | none => .error (.BadRequest "Invalid encryption key")
    | some key =>
      match retrieve_file fsDisk file.file_path with
      | .error e => .error e
      | .ok encrypted_bytes =>
        match Encrypt.decrypt
            { ciphertext := encrypted_bytes, nonce := file.nonce }
            key with
        | .error _ =>
            .error (.BadRequest
              "Failed to decrypt file - invalid encryption key")
        | .ok decrypted_data =>
          match Encrypt.decrypt
              { ciphertext := file.encrypted_filename,
                nonce := file.filename_nonce } key with
          | .error _ =>
              .error (.BadRequest
                "Failed to decrypt filename - invalid encryption key")
          | .ok filename_bytes =>
            match utf8 filename_bytes with
            | none => .error (.ServerError "Invalid filename encoding")
            | some filename => .ok (decrypted_data, filename)
  else
    if encryption_key ≠ "" then
      .error (.BadRequest
        "This file is unencrypted and does not require an encryption key")
    else
      match retrieve_file fsDisk file.file_path with
      | .error e => .error e
      | .ok file_data =>
        match utf8 file.encrypted_filename with
        | none => .error (.ServerError "Invalid filename encoding")
        | some filename => .ok (file_data, filename)

/-- Embedding of the handler `download_file_form`
(kusatsu-backend/src/handlers.rs, lines 489-610): resolves the record,
enforces the access policy, branches on whether the stored nonce is
empty (empty means plaintext storage: a non-empty caller key is
rejected, the stored filename bytes are decoded as plain UTF-8;
non-empty means content and filename are both decrypted under the
caller's key, each failure mapping to an "invalid encryption key" bad
request), then increments the download counter once and serves the
bytes and filename.  `decodeKey` embeds `EncryptionKey::from_base64`
(base64 crate, external) and `utf8` embeds `String::from_utf8`. -/
def download_file_form (now : ℤ) (db : FileDB)
    (fsDisk : String → Option Bytes) (decodeKey : String → Option Bytes)
    (utf8 : Bytes → Option String) (file_id : ℕ) (encryption_key : String) :
    Except AppError (Bytes × String) × FileDB :=
  match file_ops.get_file_by_id db file_id with
  | none => (.error .FileNotFound, db)
  | some file =>
    if !file.is_accessible now && file.is_expired now then
      (.error .FileExpired, db)
    else if !file.is_accessible now && file.is_download_limit_reached then
      (.error .DownloadLimitExceeded, db)
    else
      match downloadPayload fsDisk decodeKey utf8 file encryption_key with
      | .error e => (.error e, db)
      | .ok served =>
        (.ok served, (file_ops.increment_download_count db file_id).2)

/-- Concrete plaintext-stored record used by witnesses: empty nonce,
cap of two downloads, no expiry. -/
def plainRecord : FileEntity.Model :=
  { id := 1, file_id := 7, original_size := 1, encrypted_size := 1,
    mime_type := none, file_path := "p", nonce := [],
    encrypted_filename := [102], filename_nonce := [], created_at := 0,
    expires_at := none, download_count := 0, max_downloads := some 2 }

/-- Metadata store holding only `plainRecord` under id 7. -/
def plainDB : FileDB := fun x => if x = 7 then some plainRecord else none

/-- Concrete encrypted-stored record used by witnesses: a 12-byte nonce,
no cap, no expiry. -/
def encRecord : FileEntity.Model :=
  { id := 2, file_id := 8, original_size := 3, encrypted_size := 3,
    mime_type := none, file_path := "q", nonce := List.replicate 12 0,
    encrypted_filename := [1], filename_nonce := [], created_at := 0,
    expires_at := none, download_count := 0, max_downloads := none }

/-- Metadata store holding only `encRecord` under id 8. -/
def encDB : FileDB := fun x => if x = 8 then some encRecord else none

namespace FileStorage

/-- Embedding of `FileStorage::generate_file_path`
(kusatsu-backend/src/storage.rs, lines 37-48): the canonical textual
UUID stripped of separators supplies characters `[0,2)` and `[2,4)` as
the two directory levels; the leaf is the canonical UUID plus the
`.enc` extension.  Filesystem paths are embedded as component lists;
the path is rooted at `storage_root`. -/
def generate_file_path (storage_root : List String) (uuid : String) :
    List String :=
  let file_id_str := uuid.toList.filter (fun c => c ≠ '-')
  let level1 := String.mk (file_id_str.take 2)
  let level2 := String.mk ((file_id_str.drop 2).take 2)
  let filename := uuid ++ ".enc"
  storage_root ++ [level1, level2, filename]

/-- Embedding of `Path::strip_prefix` as used by `store_file`: removes
the storage-root prefix, failing when it is not a prefix. -/
def stripRoot (storage_root p : List String) : Option (List String) :=
  if storage_root <+: p then some (p.drop storage_root.length) else none

/-- Embedding of `FileStorage::store_file`
(kusatsu-backend/src/storage.rs, lines 51-75): derives the path, creates
parent directories, writes the bytes, and returns the path relative to
the storage root.  The disk is the function from full paths to
contents. -/
def store_file (disk : List String → Option Bytes)
    (storage_root : List String) (uuid : String) (data : Bytes) :
    (List String → Option Bytes) × Except AppError (List String) :=
  let file_path := generate_file_path storage_root uuid
  let disk' := fun p => if p = file_path then some data else disk p
  match stripRoot storage_root file_path with
  | none => (disk', .error (.ServerError "Failed to get relative path"))
  | some relative_path => (disk', .ok relative_path)

end FileStorage

namespace IncrementRace

/-- Local state of one request-handling task running
`upload_session_ops::increment_uploaded_chunks`
(kusatsu-backend/src/database.rs, lines 248-265): program counter 0
before the SELECT, 1 between SELECT and UPDATE (with the read counter
value in `reg`), 2 after the UPDATE. -/
structure TaskState where
  pc : ℕ
  reg : ℤ
deriving DecidableEq, Repr

/-- Shared uploaded-chunk counter of one session together with the two
concurrent tasks incrementing it. -/
structure RaceState where
  counter : ℤ
  t0 : TaskState
  t1 : TaskState
deriving DecidableEq, Repr

/-- One database round-trip of a task, as the source performs it: the
SELECT reads the current counter into the task, then the UPDATE writes
back the value the task read plus one (`session.uploaded_chunks.unwrap()
+ 1`). -/
def stepTask (counter : ℤ) (t : TaskState) : ℤ × TaskState :=
  if t.pc = 0 then (counter, { pc := 1, reg := counter })
  else if t.pc = 1 then (t.reg + 1, { pc := 2, reg := t.reg })
  else (counter, t)

/-- Interleaved execution step: the scheduled task performs its next
database round-trip against the shared counter. -/
def step (s : RaceState) (who : Bool) : RaceState :=
  if who then
    let (c, t) := stepTask s.counter s.t1
    { counter := c, t0 := s.t0, t1 := t }
  else
    let (c, t) := stepTask s.counter s.t0
    { counter := c, t0 := t, t1 := s.t1 }

/-- Execution of a schedule (the list of task choices). -/
def run (sched : List Bool) (s : RaceState) : RaceState :=
  sched.foldl step s

/-- Both tasks poised to increment a session whose counter is `c`. -/
def init (c : ℤ) : RaceState :=
  { counter := c, t0 := { pc := 0, reg := 0 }, t1 := { pc := 0, reg := 0 } }

end IncrementRace

namespace FileStorage

/-- State of the storage tree: the set of file paths and the set of
directory paths currently existing on disk, both as component lists
from the filesystem root (Rust `Path` components; `Path::parent` is
`dropLast`, `Path::starts_with` is component-wise prefix). -/
structure FS where
  files : Finset (List String)
  dirs : Finset (List String)

/-- Emptiness of a directory as `read_dir` observes it: no existing
file or directory has it as immediate parent. -/
def dirEmpty (fs : FS) (d : List String) : Prop :=
  (∀ f ∈ fs.files, f.dropLast ≠ d) ∧ (∀ x ∈ fs.dirs, x.dropLast ≠ d)

instance (fs : FS) (d : List String) : Decidable (dirEmpty fs d) := by
  unfold dirEmpty
  infer_instance

/-- Embedding of `FileStorage::cleanup_empty_dirs`
(kusatsu-backend/src/storage.rs, lines 117-142), with fuel equal to the
starting path length (the recursion shortens the path by one component
per step, so this fuel never cuts it short): take the parent of the
current path; when it lies strictly below the storage root, exists
(`read_dir` succeeds), and is empty, remove it and continue from it;
otherwise stop silently. -/
def cleanupAux (root : List String) : ℕ → FS → List String → FS
  | 0, fs, _ => fs
  | fuel + 1, fs, p =>
    if root <+: p.dropLast ∧ p.dropLast ≠ root ∧ p.dropLast ∈ fs.dirs ∧
        dirEmpty fs p.dropLast then
      cleanupAux root fuel { fs with dirs := fs.dirs.erase p.dropLast }
        p.dropLast
    else fs

/-- Embedding of `FileStorage::cleanup_empty_dirs` at its call site:
the walk starts from the deleted file's path. -/
def cleanup_empty_dirs (root : List String) (fs : FS) (p : List String) :
    FS :=
  cleanupAux root p.length fs p

/-- Embedding of `FileStorage::delete_file`
(kusatsu-backend/src/storage.rs, lines 95-115): removes the file at
`root ++ rel` when present and then walks upward removing now-empty
parent directories; a file already absent is tolerated (the state is
returned unchanged and the call still succeeds). -/
def delete_file (root : List String) (fs : FS) (rel : List String) : FS :=
  let file_path := root ++ rel
  if file_path ∈ fs.files then
    cleanup_empty_dirs root { fs with files := fs.files.erase file_path }
      file_path
  else fs

end FileStorage

/-- Concrete storage tree used by the C9 witness: one stored file
`r/a/b/f` and its ancestor directories `r`, `r/a`, `r/a/b`. -/
def sampleFS : FileStorage.FS :=
  { files := {["r", "a", "b", "f"]},
    dirs := {["r"], ["r", "a"], ["r", "a", "b"]} }

/-- Round-half-even of a rational to an integer: the IEEE-754 default
rounding used by `f64` arithmetic; agrees with Mathlib `round` except at
exact halves, which go to the even neighbour. -/
def rhe (x : ℚ) : ℤ :=
  if Int.fract x = 1/2 then (if Even ⌊x⌋ then ⌊x⌋ else ⌊x⌋ + 1) else round x

/-- Rounding of a positive rational to an IEEE-754 `f64`: round to 53
significant bits at the binade of the value (scale `2 ^ (e - 52)` where
`2 ^ e ≤ q < 2 ^ (e + 1)`), ties to even.  An IEEE division returns the
correctly rounded true quotient, so `round53 ((a:ℚ)/(b:ℚ))` is the
value of `(a as f64) / (b as f64)` whenever `a` and `b` are themselves
exactly representable (below `2 ^ 53`). -/
def round53 (q : ℚ) : ℚ :=
  (2 : ℚ) ^ (Int.log 2 q - 52) * rhe (q * (2 : ℚ) ^ (-(Int.log 2 q - 52)))

/-- Saturating cast of an `f64`-held integer value to `i32`, the
semantics of Rust's `as i32` on floats: values beyond the `i32` range
clamp to its bounds. -/
def i32sat (x : ℤ) : ℤ := max (-(2 ^ 31)) (min (2 ^ 31 - 1) x)

/-- Embedding of the total-chunk computation of `start_chunked_upload`
(kusatsu-backend/src/handlers.rs, line 200):
`((file_size as f64) / (chunk_size as f64)).ceil() as i32`.  The two
int-to-float conversions are exact for operands below `2 ^ 53` (the
theorems assume this of `file_size`; the chunk-size cap keeps
`chunk_size` far below), the division is the correctly rounded true
quotient (`round53`), `f64::ceil` is exact on such values, and the
final `as i32` saturates. -/
def totalChunksF64 (file_size chunk_size : ℤ) : ℤ :=
  i32sat ⌈round53 ((file_size : ℚ) / (chunk_size : ℚ))⌉

/-- Request payload of `start_chunked_upload`
(kusatsu-types/src/lib.rs, `StartUploadRequest`). -/
structure StartUploadRequest where
  filename : String
  file_size : ℤ
  mime_type : Option String
  chunk_size : Option ℤ
  expires_in_hours : Option ℤ
  max_downloads : Option ℤ

/-- Response payload of `start_chunked_upload`
(kusatsu-types/src/lib.rs, `StartUploadResponse`). -/
structure StartUploadResponse where
  upload_id : ℕ
  chunk_size : ℤ
  total_chunks : ℤ
deriving DecidableEq, Repr

/-- Default chunk size of 5 MB (kusatsu-backend/src/handlers.rs,
line 31). -/
def DEFAULT_CHUNK_SIZE : ℤ := 5 * 1024 * 1024

/-- Embedding of the handler `start_chunked_upload`
(kusatsu-backend/src/handlers.rs, lines 180-234): validates the file
size against the configured maximum and positivity, the chunk size
against `(0, 50 MiB]`, computes the total chunk count, and returns the
new session's parameters.  The configured maximum and the generated
upload id are passed explicitly. -/
def start_chunked_upload (max_file_size : ℤ) (upload_id : ℕ)
    (req : StartUploadRequest) : Except AppError StartUploadResponse :=
  if max_file_size < req.file_size then .error .FileTooLarge
  else if req.file_size ≤ 0 then .error (.BadRequest "Invalid file size")
  else
    let chunk_size := req.chunk_size.getD DEFAULT_CHUNK_SIZE
    if chunk_size ≤ 0 ∨ 50 * 1024 * 1024 < chunk_size then
      .error (.BadRequest "Invalid chunk size")
    else
      .ok { upload_id := upload_id, chunk_size := chunk_size,
            total_chunks := totalChunksF64 req.file_size chunk_size }

/-- Embedding of the expected-chunk-length computation of
`upload_chunk` (kusatsu-backend/src/handlers.rs, lines 310-317): the
last index expects the remaining bytes
`total_size - index * chunk_size`, every other index exactly
`chunk_size`. -/
def expectedChunkSize (total_size chunk_size total_chunks index : ℤ) : ℤ :=
  if index = total_chunks - 1 then total_size - index * chunk_size
  else chunk_size

namespace Encrypt

theorem aeadOpen_seal (key nonce data : Bytes) :
    aeadOpen key nonce (aeadSeal key nonce data) = some data := by
  unfold aeadOpen aeadSeal
  have hsub : (data ++ key ++ nonce).length - (key.length + nonce.length)
      = data.length := by
    simp [List.length_append]
  rw [if_pos]
  · rw [hsub, List.append_assoc, List.take_left]
  · refine ⟨by simp [List.length_append], ?_⟩
    rw [hsub, List.append_assoc, List.drop_left]

theorem aeadOpen_wrong_key (key key' nonce data : Bytes)
    (hk : key.length = key'.length) (hne : key ≠ key') :
    aeadOpen key' nonce (aeadSeal key nonce data) = none := by
  unfold aeadOpen aeadSeal
  have hsub : (data ++ key ++ nonce).length - (key'.length + nonce.length)
      = data.length := by
    simp [List.length_append]
    omega
  rw [if_neg]
  rintro ⟨hle, heq⟩
  rw [hsub, List.append_assoc, List.drop_left] at heq
  exact hne (List.append_inj heq hk).1

end Encrypt

/-- C5: decrypting an encryption under the same 256-bit key returns the
original bytes (including the empty string), and decrypting under any
distinct key fails with a decryption error rather than any plaintext. -/
theorem decrypt_encrypt_roundtrip_and_wrong_key_fails
    (data key key₂ nonce : Bytes)
    (hk : key.length = 32) (hk₂ : key₂.length = 32) (hn : nonce.length = 12) :
    Encrypt.decrypt (Encrypt.encrypt nonce data key) key = .ok data ∧
    (key ≠ key₂ →
      Encrypt.decrypt (Encrypt.encrypt nonce data key) key₂
        = .error .DecryptionFailed) := by
  constructor
  · unfold Encrypt.decrypt Encrypt.encrypt
    rw [if_neg (by simp [hn])]
    simp [Encrypt.aeadOpen_seal]
  · intro hne
    unfold Encrypt.decrypt Encrypt.encrypt
    rw [if_neg (by simp [hn])]
    simp [Encrypt.aeadOpen_wrong_key key key₂ nonce data (hk.trans hk₂.symm) hne]

/-- Witness for C5 at a concrete plaintext, nonce and pair of distinct
keys. -/
theorem decrypt_encrypt_roundtrip_and_wrong_key_fails_witness :
    ((List.replicate 32 0 : Bytes).length = 32) ∧
    ((1 :: List.replicate 31 0 : Bytes).length = 32) ∧
    ((List.replicate 12 7 : Bytes).length = 12) ∧
    ((List.replicate 32 0 : Bytes) ≠ 1 :: List.replicate 31 0) ∧
    Encrypt.decrypt
      (Encrypt.encrypt (List.replicate 12 7) [104, 105] (List.replicate 32 0))
      (List.replicate 32 0) = .ok [104, 105] ∧
    Encrypt.decrypt
      (Encrypt.encrypt (List.replicate 12 7) [104, 105] (List.replicate 32 0))
      (1 :: List.replicate 31 0) = .error .DecryptionFailed :=
  ⟨by decide, by decide, by decide, by decide,
    (decrypt_encrypt_roundtrip_and_wrong_key_fails [104, 105]
      (List.replicate 32 0) (1 :: List.replicate 31 0) (List.replicate 12 7)
      (by decide) (by decide) (by decide)).1,
    (decrypt_encrypt_roundtrip_and_wrong_key_fails [104, 105]
      (List.replicate 32 0) (1 :: List.replicate 31 0) (List.replicate 12 7)
      (by decide) (by decide) (by decide)).2 (by decide)⟩

theorem chunkSplit_join (cs : ℕ) (hcs : 0 < cs) (data : Bytes) :
    (chunkSplit cs data).flatten = data := by
  have key : ∀ n (d : Bytes), d.length ≤ n → (chunkSplit cs d).flatten = d := by
    intro n
    induction n with
    | zero =>
      intro d hd
      have : d = [] := List.length_eq_zero.mp (Nat.le_zero.mp hd)
      subst this
      rw [chunkSplit]
      simp
    | succ n ih =>
      intro d hd
      rw [chunkSplit]
      by_cases hnil : d = []
      · simp [hnil]
      · rw [dif_neg (by simp [hnil]; omega)]
        have hlen : (d.drop cs).length ≤ n := by
          simp only [List.length_drop]
          have : d.length ≠ 0 := fun hz => hnil (List.length_eq_zero.mp hz)
          omega
        simp only [List.flatten_cons, ih (d.drop cs) hlen, List.take_append_drop]
  exact key data.length data le_rfl

theorem list_range_map_get (chunks : List Bytes) :
    (List.range chunks.length).map (fun k => chunks.get? k)
      = chunks.map some := by
  induction chunks with
  | nil => simp
  | cons c cs ih =>
    rw [List.length_cons, List.range_succ_eq_map]
    simp only [List.map_cons, List.map_map, List.get?_cons_zero,
      Function.comp_def, List.get?_cons_succ]
    rw [ih]

theorem map_storeOfChunks (chunks : List Bytes) :
    ((List.range chunks.length).map (fun k : ℕ => (k : ℤ))).map
        (storeOfChunks chunks) = chunks.map some := by
  have heq : ((List.range chunks.length).map (fun k : ℕ => (k : ℤ))).map
      (storeOfChunks chunks)
      = (List.range chunks.length).map (fun k => chunks.get? k) := by
    simp only [List.map_map]
    apply List.map_congr_left
    intro k _
    simp [storeOfChunks, Function.comp_def]
  rw [heq, list_range_map_get]

theorem rangeInts_natCast (n : ℕ) :
    ChunkStorage.rangeInts (n : ℤ)
      = (List.range n).map (fun k : ℕ => (k : ℤ)) := by
  simp [ChunkStorage.rangeInts]

theorem assembleChunksAux_ok (store : ChunkStorage.Store) (uid : String) :
    ∀ (idxs : List ℤ) (vals : List Bytes),
      idxs.map store = vals.map some →
      ChunkStorage.assembleChunksAux store uid idxs = .ok vals.flatten := by
  intro idxs
  induction idxs with
  | nil =>
    intro vals h
    cases vals with
    | nil => simp [ChunkStorage.assembleChunksAux]
    | cons v vs => simp at h
  | cons i rest ih =>
    intro vals h
    cases vals with
    | nil => simp at h
    | cons v vs =>
      simp only [List.map_cons, List.cons.injEq] at h
      obtain ⟨h1, h2⟩ := h
      unfold ChunkStorage.assembleChunksAux
      rw [h1, ih vs h2]
      rfl

theorem assembleChunksAux_err (store : ChunkStorage.Store) (uid : String)
    (i : ℤ) (hmiss : store i = none) :
    ∀ (pre : List ℤ), (∀ j ∈ pre, (store j).isSome) → ∀ (post : List ℤ),
      ChunkStorage.assembleChunksAux store uid (pre ++ i :: post)
        = .error (.BadRequest
            ("Missing chunk " ++ toString i ++ " for upload " ++ uid)) := by
  intro pre
  induction pre with
  | nil =>
    intro _ post
    unfold ChunkStorage.assembleChunksAux
    rw [List.nil_append]
    simp only []
    rw [hmiss]
  | cons j pre' ih =>
    intro hp post
    have hj : (store j).isSome := hp j (List.mem_cons_self j pre')
    obtain ⟨v, hv⟩ := Option.isSome_iff_exists.mp hj
    rw [List.cons_append]
    unfold ChunkStorage.assembleChunksAux
    rw [hv, ih (fun x hx => hp x (List.mem_cons_of_mem j hx)) post]
    rfl

theorem range_decomp_nat (a m : ℕ) :
    List.range (a + (m + 1))
      = List.range a ++ a :: (List.range m).map (fun k => a + 1 + k) := by
  rw [List.range_add, List.range_succ_eq_map]
  congr 1
  simp only [List.map_cons, List.map_map, Nat.add_zero, Function.comp_def]
  congr 1
  apply List.map_congr_left
  intro k _
  omega

theorem rangeInts_decomp (i total : ℤ) (h0 : 0 ≤ i) (hlt : i < total) :
    ∃ post, ChunkStorage.rangeInts total
        = ChunkStorage.rangeInts i ++ i :: post ∧
      ∀ j ∈ ChunkStorage.rangeInts i, 0 ≤ j ∧ j < i := by
  have hnat : i.toNat < total.toNat := by omega
  obtain ⟨m, hm⟩ := Nat.exists_eq_add_of_lt hnat
  refine ⟨((List.range m).map (fun k => i.toNat + 1 + k)).map
      (fun k : ℕ => (k : ℤ)), ?_, ?_⟩
  · unfold ChunkStorage.rangeInts
    rw [show total.toNat = i.toNat + (m + 1) by omega]
    rw [range_decomp_nat]
    rw [List.map_append, List.map_cons]
    congr 2
    omega
  · intro j hj
    unfold ChunkStorage.rangeInts at hj
    simp only [List.mem_map, List.mem_range] at hj
    obtain ⟨k, hk, rfl⟩ := hj
    omega

/-- C4: assembling the chunk store that holds exactly the chunk-split of
a byte sequence reproduces that sequence (chunk-split then assemble is
the identity), and when some index in `0..total_chunks` has no stored
chunk, assembly aborts with the "Missing chunk" failure identifying the
first such index. -/
theorem assemble_chunks_roundtrip_and_missing :
    (∀ (cs : ℕ) (data : Bytes) (uid : String), 0 < cs →
      ChunkStorage.assemble_chunks (storeOfChunks (chunkSplit cs data)) uid
        ((chunkSplit cs data).length : ℤ) = .ok data) ∧
    (∀ (store : ChunkStorage.Store) (uid : String) (total i : ℤ),
      0 ≤ i → i < total → store i = none →
      (∀ j, 0 ≤ j → j < i → (store j).isSome) →
      ChunkStorage.assemble_chunks store uid total
        = .error (.BadRequest
            ("Missing chunk " ++ toString i ++ " for upload " ++ uid))) := by
  constructor
  · intro cs data uid hcs
    unfold ChunkStorage.assemble_chunks
    rw [rangeInts_natCast]
    rw [assembleChunksAux_ok (storeOfChunks (chunkSplit cs data)) uid _
      (chunkSplit cs data) (map_storeOfChunks (chunkSplit cs data))]
    rw [chunkSplit_join cs hcs data]
  · intro store uid total i h0 hlt hmiss hfirst
    obtain ⟨post, hdecomp, hpre⟩ := rangeInts_decomp i total h0 hlt
    unfold ChunkStorage.assemble_chunks
    rw [hdecomp]
    exact assembleChunksAux_err store uid i hmiss _
      (fun j hj => hfirst j (hpre j hj).1 (hpre j hj).2) post

/-- Witness for C4: splitting the bytes `[1,2,3]` into chunks of two and
assembling reproduces them; assembling a store whose index 1 is absent
aborts naming chunk 1. -/
theorem assemble_chunks_roundtrip_and_missing_witness :
    ChunkStorage.assemble_chunks (storeOfChunks (chunkSplit 2 [1, 2, 3])) "u"
      ((chunkSplit 2 [1, 2, 3]).length : ℤ) = .ok [1, 2, 3] ∧
    ChunkStorage.assemble_chunks (storeOfChunks [[9]]) "u" 2
      = .error (.BadRequest ("Missing chunk " ++ toString (1 : ℤ)
          ++ " for upload " ++ "u")) :=
  ⟨assemble_chunks_roundtrip_and_missing.1 2 [1, 2, 3] "u" (by decide),
    assemble_chunks_roundtrip_and_missing.2 (storeOfChunks [[9]]) "u" 2 1
      (by decide) (by decide) (by decide)
      (fun j hj0 hj1 => by
        have hj : j = 0 := by omega
        rw [hj]
        rfl)⟩

/-- C2: re-submitting an index whose chunk already exists, against an
active (non-expired), non-complete session, returns the session's
current progress and changes neither the uploaded-chunk counter, the
session store, nor the chunk store. -/
theorem upload_chunk_idempotent_on_existing_chunk
    (now : ℤ) (db : SessionDB) (store : ChunkStorage.Store)
    (upload_id : ℕ) (chunk_number : ℤ) (chunk_data : Option Bytes)
    (s : UploadSessionEntity.Model)
    (hsess : db upload_id = some s)
    (hexp : s.is_expired now = false)
    (hcomp : s.is_complete = false)
    (h0 : 0 ≤ chunk_number) (hlt : chunk_number < s.total_chunks)
    (hex : (store chunk_number).isSome) :
    upload_chunk now db store upload_id chunk_number chunk_data
      = (.ok { chunk_number := chunk_number
               uploaded_chunks := s.uploaded_chunks
               total_chunks := s.total_chunks
               progress := s.progress }, (db, store)) := by
  unfold upload_chunk upload_session_ops.get_upload_session_by_id
  rw [hsess]
  simp only [hexp, hcomp, Bool.false_eq_true, if_false]
  rw [if_neg (by omega)]
  rw [if_pos (by simpa [ChunkStorage.chunk_exists] using hex)]

/-- Witness for C2 at a concrete session with chunk 0 already stored. -/
theorem upload_chunk_idempotent_on_existing_chunk_witness :
    upload_chunk 50
      (fun x => if x = 5 then some
        { id := 1, upload_id := 5, filename := "f", mime_type := none,
          total_size := 3, total_chunks := 2, uploaded_chunks := 1,
          chunk_size := 2, expires_in_hours := none, max_downloads := none,
          created_at := 0, expires_at := 100 } else none)
      (fun i => if i = 0 then some [1, 2] else none)
      5 0 (some [9, 9])
      = (.ok { chunk_number := 0, uploaded_chunks := 1, total_chunks := 2,
               progress :=
                 ({ id := 1, upload_id := 5, filename := "f",
                    mime_type := none, total_size := 3, total_chunks := 2,
                    uploaded_chunks := 1, chunk_size := 2,
                    expires_in_hours := none, max_downloads := none,
                    created_at := 0, expires_at := 100 } :
                    UploadSessionEntity.Model).progress },
         ((fun x => if x = 5 then some
            { id := 1, upload_id := 5, filename := "f", mime_type := none,
              total_size := 3, total_chunks := 2, uploaded_chunks := 1,
              chunk_size := 2, expires_in_hours := none, max_downloads := none,
              created_at := 0, expires_at := 100 } else none),
          (fun i => if i = 0 then some [1, 2] else none))) :=
  upload_chunk_idempotent_on_existing_chunk 50 _ _ 5 0 (some [9, 9]) _
    (by rfl) (by decide) (by decide) (by decide) (by decide) (by rfl)

/-- C10: incrementing the download counter of a file id that matches no
record returns success and leaves the metadata store unchanged. -/
theorem increment_download_count_missing_id (db : FileDB) (file_id : ℕ)
    (habsent : db file_id = none) :
    file_ops.increment_download_count db file_id = (.ok (), db) := by
  unfold file_ops.increment_download_count
  rw [habsent]

/-- Witness for C10 on the empty metadata store. -/
theorem increment_download_count_missing_id_witness :
    file_ops.increment_download_count (fun _ => none) 3
      = (.ok (), fun _ => none) :=
  increment_download_count_missing_id (fun _ => none) 3 (by rfl)

/-- C6: under the access policy of the file record, a record capped at
`N` downloads is accessible while its counter is below `N` (attempts 1
through `N` see counters `0..N-1`) and inaccessible once the counter
reaches `N` (attempt `N+1` onward); a past expiry makes the record
inaccessible regardless of the counter; an absent cap never reaches the
limit and an absent expiry never expires; and a successful serve
increments the record's download counter exactly once, leaving every
other record unchanged. -/
theorem file_access_policy_and_single_increment (now : ℤ) :
    (∀ (m : FileEntity.Model) (N : ℤ), m.max_downloads = some N →
      m.is_expired now = false → m.download_count < N →
      m.is_accessible now = true) ∧
    (∀ (m : FileEntity.Model) (N : ℤ), m.max_downloads = some N →
      N ≤ m.download_count → m.is_accessible now = false) ∧
    (∀ m : FileEntity.Model, m.is_expired now = true →
      m.is_accessible now = false) ∧
    (∀ m : FileEntity.Model, m.max_downloads = none →
      m.is_download_limit_reached = false) ∧
    (∀ m : FileEntity.Model, m.expires_at = none →
      m.is_expired now = false) ∧
    (∀ (db : FileDB) (fsDisk : String → Option Bytes)
      (decodeKey : String → Option Bytes) (utf8 : Bytes → Option String)
      (fid : ℕ) (key : String) (m : FileEntity.Model) (out : Bytes × String),
      db fid = some m →
      (download_file_form now db fsDisk decodeKey utf8 fid key).1 = .ok out →
      (download_file_form now db fsDisk decodeKey utf8 fid key).2 fid
        = some { m with download_count := m.download_count + 1 } ∧
      (∀ x, x ≠ fid →
        (download_file_form now db fsDisk decodeKey utf8 fid key).2 x
          = db x)) := by
  refine ⟨?_, ?_, ?_, ?_, ?_, ?_⟩
  · intro m N hmax hexp hlt
    unfold FileEntity.Model.is_accessible
      FileEntity.Model.is_download_limit_reached
    rw [hexp, hmax]
    simp only [Bool.not_false, Bool.true_and, Bool.not_eq_true',
      decide_eq_false_iff_not]
    omega
  · intro m N hmax hge
    unfold FileEntity.Model.is_accessible
      FileEntity.Model.is_download_limit_reached
    rw [hmax]
    simp [hge]
  · intro m hexp
    simp [FileEntity.Model.is_accessible, hexp]
  · intro m hmax
    simp [FileEntity.Model.is_download_limit_reached, hmax]
  · intro m hnone
    simp [FileEntity.Model.is_expired, hnone]
  · intro db fsDisk decodeKey utf8 fid key m out hm hok
    unfold download_file_form file_ops.get_file_by_id at hok ⊢
    simp only [hm] at hok ⊢
    by_cases h1 : (!m.is_accessible now && m.is_expired now) = true
    · rw [if_pos h1] at hok
      simp at hok
    · rw [if_neg h1] at hok ⊢
      by_cases h2 :
          (!m.is_accessible now && m.is_download_limit_reached) = true
      · rw [if_pos h2] at hok
        simp at hok
      · rw [if_neg h2] at hok ⊢
        cases hpl : downloadPayload fsDisk decodeKey utf8 m key with
        | error e =>
          rw [hpl] at hok
          simp at hok
        | ok served =>
          constructor
          · simp [file_ops.increment_download_count, hm]
          · intro x hx
            simp [file_ops.increment_download_count, hm, hx]

/-- Witness for C6: the concrete record is accessible at counter 0 under
its cap of 2, and a successful plaintext serve leaves its counter at
exactly one. -/
theorem file_access_policy_and_single_increment_witness :
    plainRecord.is_accessible 10 = true ∧
    (download_file_form 10 plainDB (fun _ => some [5]) (fun _ => none)
        (fun _ => some "f") 7 "").2 7
      = some { plainRecord with
          download_count := plainRecord.download_count + 1 } :=
  ⟨(file_access_policy_and_single_increment 10).1 plainRecord 2
      (by rfl) (by decide) (by decide),
    ((file_access_policy_and_single_increment 10).2.2.2.2.2 plainDB
      (fun _ => some [5]) (fun _ => none) (fun _ => some "f") 7 ""
      plainRecord ([5], "f") (by rfl) (by rfl)).1⟩

/-- C7: downloads branch on emptiness of the stored nonce.  Empty nonce:
a non-empty caller key is rejected as an error and the stored bytes and
filename are served as plaintext.  Non-empty nonce: a key is required
(an undecodable key is rejected), and a failure to decrypt the content
or the filename is reported as the respective fixed generic
invalid-encryption-key bad request, for every failure cause alike (the
error value does not depend on the decryption error, so wrong key and
corrupted data are indistinguishable).  Records created by the
unencrypted path carry the empty nonce and plaintext filename bytes
that the empty-nonce branch interprets. -/
theorem download_branches_on_nonce (now : ℤ) :
    (∀ (db : FileDB) (fsDisk decodeKey : String → Option Bytes)
      (utf8 : Bytes → Option String) (fid : ℕ) (key : String)
      (m : FileEntity.Model),
      db fid = some m → m.is_accessible now = true → m.nonce = [] →
      key ≠ "" →
      download_file_form now db fsDisk decodeKey utf8 fid key
        = (.error (.BadRequest
            "This file is unencrypted and does not require an encryption key"),
           db)) ∧
    (∀ (db : FileDB) (fsDisk decodeKey : String → Option Bytes)
      (utf8 : Bytes → Option String) (fid : ℕ) (m : FileEntity.Model)
      (data : Bytes) (fn : String),
      db fid = some m → m.is_accessible now = true → m.nonce = [] →
      fsDisk m.file_path = some data → utf8 m.encrypted_filename = some fn →
      (download_file_form now db fsDisk decodeKey utf8 fid "").1
        = .ok (data, fn)) ∧
    (∀ (db : FileDB) (fsDisk decodeKey : String → Option Bytes)
      (utf8 : Bytes → Option String) (fid : ℕ) (key : String)
      (m : FileEntity.Model),
      db fid = some m → m.is_accessible now = true → m.nonce ≠ [] →
      decodeKey key = none →
      download_file_form now db fsDisk decodeKey utf8 fid key
        = (.error (.BadRequest "Invalid encryption key"), db)) ∧
    (∀ (db : FileDB) (fsDisk decodeKey : String → Option Bytes)
      (utf8 : Bytes → Option String) (fid : ℕ) (key : String)
      (m : FileEntity.Model) (k encBytes : Bytes) (err : EncryptionError),
      db fid = some m → m.is_accessible now = true → m.nonce ≠ [] →
      decodeKey key = some k → fsDisk m.file_path = some encBytes →
      Encrypt.decrypt { ciphertext := encBytes, nonce := m.nonce } k
        = .error err →
      download_file_form now db fsDisk decodeKey utf8 fid key
        = (.error (.BadRequest
            "Failed to decrypt file - invalid encryption key"), db)) ∧
    (∀ (db : FileDB) (fsDisk decodeKey : String → Option Bytes)
      (utf8 : Bytes → Option String) (fid : ℕ) (key : String)
      (m : FileEntity.Model) (k encBytes contentOk : Bytes)
      (err : EncryptionError),
      db fid = some m → m.is_accessible now = true → m.nonce ≠ [] →
      decodeKey key = some k → fsDisk m.file_path = some encBytes →
      Encrypt.decrypt { ciphertext := encBytes, nonce := m.nonce } k
        = .ok contentOk →
      Encrypt.decrypt
          { ciphertext := m.encrypted_filename, nonce := m.filename_nonce }
          k = .error err →
      download_file_form now db fsDisk decodeKey utf8 fid key
        = (.error (.BadRequest
            "Failed to decrypt filename - invalid encryption key"), db)) ∧
    (∀ (rowId now₂ : ℤ) (params : file_ops.CreateUnencryptedFileParams),
      (file_ops.create_unencrypted_file_record rowId now₂ params).nonce = []
      ∧ (file_ops.create_unencrypted_file_record rowId now₂
          params).encrypted_filename = strBytes params.filename) := by
  refine ⟨?_, ?_, ?_, ?_, ?_, ?_⟩
  · intro db fsDisk decodeKey utf8 fid key m hm hacc hnonce hkey
    unfold download_file_form file_ops.get_file_by_id
    simp only [hm]
    rw [if_neg (by simp [hacc]), if_neg (by simp [hacc])]
    unfold downloadPayload
    simp only [hnonce, List.isEmpty_nil, Bool.not_true, Bool.false_eq_true,
      if_false]
    rw [if_pos hkey]
  · intro db fsDisk decodeKey utf8 fid m data fn hm hacc hnonce hdisk hutf
    unfold download_file_form file_ops.get_file_by_id
    simp only [hm]
    rw [if_neg (by simp [hacc]), if_neg (by simp [hacc])]
    unfold downloadPayload retrieve_file
    simp only [hnonce, List.isEmpty_nil, Bool.not_true, Bool.false_eq_true,
      if_false]
    rw [if_neg (by simp)]
    simp only [hdisk, hutf]
  · intro db fsDisk decodeKey utf8 fid key m hm hacc hnonce hdec
    unfold download_file_form file_ops.get_file_by_id
    simp only [hm]
    rw [if_neg (by simp [hacc]), if_neg (by simp [hacc])]
    unfold downloadPayload
    rw [if_pos (by simp [List.isEmpty_iff, hnonce])]
    simp only [hdec]
  · intro db fsDisk decodeKey utf8 fid key m k encBytes err hm hacc hnonce
      hdec hdisk hfail
    unfold download_file_form file_ops.get_file_by_id
    simp only [hm]
    rw [if_neg (by simp [hacc]), if_neg (by simp [hacc])]
    unfold downloadPayload retrieve_file
    rw [if_pos (by simp [List.isEmpty_iff, hnonce])]
    simp only [hdec, hdisk, hfail]
  · intro db fsDisk decodeKey utf8 fid key m k encBytes contentOk err hm hacc
      hnonce hdec hdisk hcontent hfail
    unfold download_file_form file_ops.get_file_by_id
    simp only [hm]
    rw [if_neg (by simp [hacc]), if_neg (by simp [hacc])]
    unfold downloadPayload retrieve_file
    rw [if_pos (by simp [List.isEmpty_iff, hnonce])]
    simp only [hdec, hdisk, hcontent, hfail]
  · intro rowId now₂ params
    exact ⟨rfl, rfl⟩

/-- Witness for C7: serving the concrete encrypted record with a key
that fails to open the stored ciphertext yields the generic
invalid-encryption-key rejection, and a plaintext record rejects a
supplied key. -/
theorem download_branches_on_nonce_witness :
    download_file_form 10 encDB (fun _ => some [1, 2, 3])
        (fun _ => some (List.replicate 32 0)) (fun _ => some "f") 8 "k"
      = (.error (.BadRequest
          "Failed to decrypt file - invalid encryption key"), encDB) ∧
    download_file_form 10 plainDB (fun _ => some [5]) (fun _ => none)
        (fun _ => some "f") 7 "k"
      = (.error (.BadRequest
          "This file is unencrypted and does not require an encryption key"),
         plainDB) :=
  ⟨(download_branches_on_nonce 10).2.2.2.1 encDB (fun _ => some [1, 2, 3])
      (fun _ => some (List.replicate 32 0)) (fun _ => some "f") 8 "k"
      encRecord (List.replicate 32 0) [1, 2, 3] .DecryptionFailed
      (by rfl) (by decide) (by decide) (by rfl) (by rfl) (by rfl),
    (download_branches_on_nonce 10).1 plainDB (fun _ => some [5])
      (fun _ => none) (fun _ => some "f") 7 "k" plainRecord
      (by rfl) (by decide) (by decide) (by decide)⟩

/-- C8: the storage path of a file id is derived deterministically from
the separator-stripped canonical id — first-level directory characters
`[0,2)`, second-level characters `[2,4)`, leaf the canonical id plus the
store's extension; the id `550e8400e29b41d4a716446655440000` maps to
`55/0e/550e8400-e29b-41d4-a716-446655440000.enc`; and `store_file`
writes the bytes at the derived path and returns exactly the
root-relative component list, never an absolute (root-carrying)
path. -/
theorem generate_file_path_sharding :
    (∀ root : List String,
      FileStorage.generate_file_path root
          "550e8400-e29b-41d4-a716-446655440000"
        = root ++ ["55", "0e", "550e8400-e29b-41d4-a716-446655440000.enc"]) ∧
    (∀ (root : List String) (uuid : String)
      (disk : List String → Option Bytes) (data : Bytes),
      (FileStorage.store_file disk root uuid data).2
        = .ok [String.mk ((uuid.toList.filter (fun c => c ≠ '-')).take 2),
            String.mk (((uuid.toList.filter (fun c => c ≠ '-')).drop 2).take 2),
            uuid ++ ".enc"] ∧
      root ++ [String.mk ((uuid.toList.filter (fun c => c ≠ '-')).take 2),
            String.mk (((uuid.toList.filter (fun c => c ≠ '-')).drop 2).take 2),
            uuid ++ ".enc"]
          = FileStorage.generate_file_path root uuid ∧
      (FileStorage.store_file disk root uuid data).1
          (FileStorage.generate_file_path root uuid) = some data) := by
  constructor
  · intro root
    rfl
  · intro root uuid disk data
    refine ⟨?_, rfl, ?_⟩
    · simp only [FileStorage.store_file, FileStorage.stripRoot,
        FileStorage.generate_file_path]
      rw [if_pos (List.prefix_append root _)]
      simp [List.drop_left]
    · simp only [FileStorage.store_file]
      rcases hsr : FileStorage.stripRoot root
          (FileStorage.generate_file_path root uuid) with _ | rel
      · simp only [hsr]
        simp
      · simp only [hsr]
        simp

/-- C1 (failing execution): interleaving the two database round-trips
of two concurrent `increment_uploaded_chunks` calls on the same session
— task 0 SELECTs, task 1 SELECTs, task 0 UPDATEs, task 1 UPDATEs —
leaves the counter at 1 starting from 0, losing one increment, while
the serialized schedule leaves it at 2.  The read-then-write pair of
the source is therefore not atomic: a concurrent acceptance can erase
another's increment. -/
theorem increment_race_lost_update :
    (IncrementRace.run [false, true, false, true]
      (IncrementRace.init 0)).counter = 1 ∧
    (IncrementRace.run [false, false, true, true]
      (IncrementRace.init 0)).counter = 2 :=
  ⟨rfl, rfl⟩

namespace FileStorage

theorem dirEmpty_mono {fs₁ fs₂ : FS} (hf : fs₂.files ⊆ fs₁.files)
    (hd : fs₂.dirs ⊆ fs₁.dirs) {d : List String} (h : dirEmpty fs₁ d) :
    dirEmpty fs₂ d :=
  ⟨fun f hfm => h.1 f (hf hfm), fun x hxm => h.2 x (hd hxm)⟩

theorem prefix_dropLast_of_proper {α : Type} {d p : List α}
    (hp : d <+: p) (hne : d ≠ p) : d <+: p.dropLast := by
  obtain ⟨t, rfl⟩ := hp
  cases t with
  | nil => exact absurd (by simp) hne
  | cons x t' =>
    rw [List.dropLast_append_of_ne_nil _ (by simp)]
    exact ⟨(x :: t').dropLast, rfl⟩

theorem dropLast_prefix_self {α : Type} (p : List α) :
    p.dropLast <+: p := by
  rw [List.dropLast_eq_take]
  exact List.take_prefix _ p

theorem cleanupAux_files (root : List String) :
    ∀ (n : ℕ) (fs : FS) (p : List String),
      (cleanupAux root n fs p).files = fs.files := by
  intro n
  induction n with
  | zero => intro fs p; rfl
  | succ n ih =>
    intro fs p
    unfold cleanupAux
    split
    · exact ih _ _
    · rfl

theorem cleanupAux_dirs_subset (root : List String) :
    ∀ (n : ℕ) (fs : FS) (p : List String),
      (cleanupAux root n fs p).dirs ⊆ fs.dirs := by
  intro n
  induction n with
  | zero => intro fs p; exact fun _ h => h
  | succ n ih =>
    intro fs p
    unfold cleanupAux
    split
    · exact fun x hx => Finset.erase_subset _ _ (ih _ _ hx)
    · exact fun _ h => h

theorem cleanupAux_removed (root : List String) :
    ∀ (n : ℕ) (fs : FS) (p d : List String),
      d ∈ fs.dirs → d ∉ (cleanupAux root n fs p).dirs →
      root <+: d ∧ d ≠ root ∧ d <+: p ∧ d ≠ p ∧
        dirEmpty (cleanupAux root n fs p) d := by
  intro n
  induction n with
  | zero => intro fs p d hin hout; exact absurd hin hout
  | succ n ih =>
    intro fs p d hin hout
    unfold cleanupAux at hout ⊢
    by_cases hc : root <+: p.dropLast ∧ p.dropLast ≠ root ∧
        p.dropLast ∈ fs.dirs ∧ dirEmpty fs p.dropLast
    · rw [if_pos hc] at hout ⊢
      obtain ⟨h1, h2, h3, h4⟩ := hc
      have hpne : p ≠ [] := by
        intro hp
        subst hp
        simp only [List.dropLast_nil] at h1 h2
        exact h2 (List.prefix_nil.mp h1).symm
      have hplen : p.length ≠ 0 := fun h0 => hpne (List.length_eq_zero.mp h0)
      by_cases hd : d = p.dropLast
      · subst hd
        refine ⟨h1, h2, dropLast_prefix_self p, ?_, ?_⟩
        · intro he
          have hlen := congrArg List.length he
          rw [List.length_dropLast] at hlen
          omega
        · refine dirEmpty_mono ?_ ?_ h4
          · rw [cleanupAux_files]
          · exact fun x hx =>
              Finset.erase_subset _ _ (cleanupAux_dirs_subset root n _ _ hx)
      · have hin' : d ∈ fs.dirs.erase p.dropLast :=
          Finset.mem_erase.mpr ⟨hd, hin⟩
        obtain ⟨r1, r2, r3, r4, r5⟩ :=
          ih { fs with dirs := fs.dirs.erase p.dropLast } p.dropLast d
            hin' hout
        refine ⟨r1, r2, r3.trans (dropLast_prefix_self p), ?_, r5⟩
        intro he
        subst he
        have hle := r3.length_le
        rw [List.length_dropLast] at hle
        omega
    · rw [if_neg hc] at hout ⊢
      exact absurd hin hout

theorem cleanupAux_complete (root : List String) :
    ∀ (n : ℕ) (fs : FS) (p : List String), p.length ≤ n →
      (∀ d', root <+: d' → d' <+: p → d' ≠ p → d' ∈ fs.dirs) →
      ∀ d ∈ (cleanupAux root n fs p).dirs, root <+: d → d ≠ root →
        d <+: p → d ≠ p → ¬ dirEmpty (cleanupAux root n fs p) d := by
  intro n
  induction n with
  | zero =>
    intro fs p hlen hanc d hdin hr1 hr2 hp1 hp2
    have hp : p = [] := List.length_eq_zero.mp (Nat.le_zero.mp hlen)
    subst hp
    exact absurd (List.prefix_nil.mp hp1) hp2
  | succ n ih =>
    intro fs p hlen hanc d hdin hr1 hr2 hp1 hp2
    unfold cleanupAux at hdin ⊢
    by_cases hc : root <+: p.dropLast ∧ p.dropLast ≠ root ∧
        p.dropLast ∈ fs.dirs ∧ dirEmpty fs p.dropLast
    · rw [if_pos hc] at hdin ⊢
      obtain ⟨h1, h2, h3, h4⟩ := hc
      have hpne : p ≠ [] := by
        intro hp
        subst hp
        simp only [List.dropLast_nil] at h1 h2
        exact h2 (List.prefix_nil.mp h1).symm
      have hplen : p.length ≠ 0 := fun h0 => hpne (List.length_eq_zero.mp h0)
      have hdparent : d ≠ p.dropLast := by
        intro he
        subst he
        have hmem := cleanupAux_dirs_subset root n _ _ hdin
        exact (Finset.mem_erase.mp hmem).1 rfl
      refine ih { fs with dirs := fs.dirs.erase p.dropLast } p.dropLast
        ?_ ?_ d hdin hr1 hr2 (prefix_dropLast_of_proper hp1 hp2) hdparent
      · rw [List.length_dropLast]
        omega
      · intro d' a1 a2 a3
        refine Finset.mem_erase.mpr ⟨a3, ?_⟩
        refine hanc d' a1 (a2.trans (dropLast_prefix_self p)) ?_
        intro he
        subst he
        have hle := a2.length_le
        rw [List.length_dropLast] at hle
        omega
    · rw [if_neg hc] at hdin ⊢
      by_cases hdp : d = p.dropLast
      · subst hdp
        intro hemp
        exact hc ⟨hr1, hr2, hdin, hemp⟩
      · have hdpar : d <+: p.dropLast := prefix_dropLast_of_proper hp1 hp2
        obtain ⟨t, ht⟩ := hdpar
        cases t with
        | nil =>
          refine absurd ?_ hdp
          rw [← ht, List.append_nil]
        | cons x t' =>
          intro hemp
          have hcpar : d ++ [x] <+: p.dropLast := by
            refine ⟨t', ?_⟩
            rw [← ht]
            simp
          have hcp : d ++ [x] <+: p :=
            hcpar.trans (dropLast_prefix_self p)
          have hcne : d ++ [x] ≠ p := by
            intro he
            have hl1 := hcpar.length_le
            have hl2 := congrArg List.length he
            rw [List.length_dropLast] at hl1
            simp only [List.length_append, List.length_cons,
              List.length_nil] at hl1 hl2
            omega
          have hcdirs : d ++ [x] ∈ fs.dirs :=
            hanc (d ++ [x]) (hr1.trans (List.prefix_append d [x])) hcp hcne
          refine hemp.2 (d ++ [x]) hcdirs ?_
          rw [List.dropLast_append_of_ne_nil _ (by simp)]
          simp

end FileStorage

/-- C9: deleting a stored file removes exactly that file (succeeding and
leaving the state unchanged when it is already absent), only ever
removes directories that are strict descendants of the storage root and
ancestors of the deleted file and that are empty afterwards (the root
itself and directories outside the root are never removed, and all
other files are untouched), and — when the file and its ancestor
directories exist — removes all of the ancestor directories that its
deletion left empty, so that every surviving ancestor below the root is
non-empty. -/
theorem delete_file_frame (root : List String) (fs : FileStorage.FS)
    (rel : List String) :
    (FileStorage.delete_file root fs rel).files
        = fs.files.erase (root ++ rel) ∧
    (FileStorage.delete_file root fs rel).dirs ⊆ fs.dirs ∧
    (∀ d ∈ fs.dirs, d ∉ (FileStorage.delete_file root fs rel).dirs →
      root <+: d ∧ d ≠ root ∧ d <+: root ++ rel ∧ d ≠ root ++ rel ∧
        FileStorage.dirEmpty (FileStorage.delete_file root fs rel) d) ∧
    (root ++ rel ∈ fs.files →
      (∀ d', root <+: d' → d' <+: root ++ rel → d' ≠ root ++ rel →
        d' ∈ fs.dirs) →
      ∀ d ∈ (FileStorage.delete_file root fs rel).dirs, root <+: d →
        d ≠ root → d <+: root ++ rel → d ≠ root ++ rel →
        ¬ FileStorage.dirEmpty (FileStorage.delete_file root fs rel) d) := by
  unfold FileStorage.delete_file FileStorage.cleanup_empty_dirs
  by_cases hmem : root ++ rel ∈ fs.files
  · rw [if_pos hmem]
    refine ⟨?_, ?_, ?_, ?_⟩
    · rw [FileStorage.cleanupAux_files]
    · exact FileStorage.cleanupAux_dirs_subset root _ _ _
    · intro d hin hout
      exact FileStorage.cleanupAux_removed root _ _ _ d hin hout
    · intro _ hanc d hdin hr1 hr2 hp1 hp2
      exact FileStorage.cleanupAux_complete root (root ++ rel).length
        { files := fs.files.erase (root ++ rel), dirs := fs.dirs }
        (root ++ rel) le_rfl hanc d hdin hr1 hr2 hp1 hp2
  · rw [if_neg hmem]
    refine ⟨(Finset.erase_eq_of_not_mem hmem).symm, fun _ hx => hx, ?_, ?_⟩
    · intro d hin hout
      exact absurd hin hout
    · intro hmem' _ _ _ _ _ _ _
      exact absurd hmem' hmem

/-- Witness for C9: deleting `r/a/b/f` from the concrete tree erases
exactly that file, and the emptied ancestor `r/a` is among the removed
directories — strictly below the root, on the file's ancestor chain and
empty afterwards. -/
theorem delete_file_frame_witness :
    (FileStorage.delete_file ["r"] sampleFS ["a", "b", "f"]).files
      = sampleFS.files.erase (["r"] ++ ["a", "b", "f"]) ∧
    (["r"] <+: ["r", "a"] ∧ ["r", "a"] ≠ ["r"] ∧
      ["r", "a"] <+: ["r"] ++ ["a", "b", "f"] ∧
      ["r", "a"] ≠ ["r"] ++ ["a", "b", "f"] ∧
      FileStorage.dirEmpty
        (FileStorage.delete_file ["r"] sampleFS ["a", "b", "f"])
        ["r", "a"]) :=
  ⟨(delete_file_frame ["r"] sampleFS ["a", "b", "f"]).1,
    (delete_file_frame ["r"] sampleFS ["a", "b", "f"]).2.2.1 ["r", "a"]
      (by decide) (by decide)⟩

theorem rhe_intCast (m : ℤ) : rhe (m : ℚ) = m := by
  unfold rhe
  rw [if_neg (by simp [Int.fract_intCast])]
  exact round_intCast m

theorem rhe_le (x : ℚ) (m : ℤ) (h : x ≤ m) : rhe x ≤ m := by
  have hceil : ⌈x⌉ ≤ m := Int.ceil_le.mpr h
  have hfc : rhe x ≤ ⌈x⌉ := by
    unfold rhe
    split
    · rename_i htie
      have hni : x ≠ (⌊x⌋ : ℚ) := by
        intro he
        rw [he] at htie
        simp [Int.fract_intCast] at htie
      have : ⌈x⌉ = ⌊x⌋ + 1 := by
        rw [Int.ceil_eq_iff]
        constructor
        · push_cast
          have := Int.floor_le x
          have hne : (⌊x⌋ : ℚ) ≠ x := fun he => hni he.symm
          have := lt_of_le_of_ne this hne
          linarith
        · push_cast
          have hfr : x - ⌊x⌋ = 1/2 := htie
          linarith
      rw [this]
      split
      · omega
      · omega
    · rw [round_eq]
      have h1 : x + 1/2 ≤ (⌈x⌉ : ℚ) + 1/2 := by
        have := Int.le_ceil x
        linarith
      calc ⌊x + 1/2⌋ ≤ ⌊(1:ℚ)/2 + ⌈x⌉⌋ := Int.floor_mono (by linarith)
        _ = ⌊(1:ℚ)/2⌋ + ⌈x⌉ := Int.floor_add_int _ _
        _ = ⌈x⌉ := by norm_num
  omega

theorem le_rhe (x : ℚ) (m : ℤ) (h : (m : ℚ) ≤ x) : m ≤ rhe x := by
  have hfl : m ≤ ⌊x⌋ := Int.le_floor.mpr h
  have hge : ⌊x⌋ ≤ rhe x := by
    unfold rhe
    split
    · split
      · omega
      · omega
    · rw [round_eq]
      apply Int.floor_mono
      linarith
  omega

theorem rhe_ge_sub_half (x : ℚ) : x - 1/2 ≤ (rhe x : ℚ) := by
  unfold rhe
  split
  · rename_i htie
    have hfr : x - ⌊x⌋ = 1/2 := htie
    split
    · linarith
    · push_cast
      linarith
  · have := abs_sub_round x
    rw [abs_le] at this
    push_cast
    linarith

set_option maxHeartbeats 1000000 in
theorem ceil_round53_div (a b : ℤ) (ha : 0 < a) (hb : 0 < b)
    (ha53 : a < 2 ^ 53) :
    ⌈round53 ((a : ℚ) / (b : ℚ))⌉ = ⌈(a : ℚ) / (b : ℚ)⌉ := by
  have hbQ : (0:ℚ) < (b:ℚ) := by exact_mod_cast hb
  have haQ : (0:ℚ) < (a:ℚ) := by exact_mod_cast ha
  set q : ℚ := (a:ℚ)/(b:ℚ) with hqdef
  clear_value q
  have hq0 : 0 < q := by rw [hqdef]; exact div_pos haQ hbQ
  have hb1 : (1:ℚ) ≤ (b:ℚ) := by exact_mod_cast hb
  have hqa : q ≤ (a:ℚ) := by
    rw [hqdef, div_le_iff hbQ]
    nlinarith
  have ha53Q : (a:ℚ) < 2 ^ (53:ℕ) := by exact_mod_cast ha53
  have hq53 : q < (2:ℚ) ^ (53:ℕ) := lt_of_le_of_lt hqa ha53Q
  set e := Int.log 2 q with hedef
  clear_value e
  have h2e : (2:ℚ) ^ e ≤ q := by
    rw [hedef]
    exact Int.zpow_log_le_self (by norm_num) hq0
  have he52 : e ≤ 52 := by
    by_contra hcon
    push_neg at hcon
    have h1 : ((2:ℚ) ^ (53:ℤ)) ≤ (2:ℚ) ^ e :=
      zpow_le_zpow_right₀ (by norm_num) (by omega)
    have h2 : (2:ℚ) ^ (53:ℤ) ≤ q := le_trans h1 h2e
    rw [show ((53:ℤ)) = ((53:ℕ):ℤ) by norm_num, zpow_natCast] at h2
    linarith
  set s := e - 52 with hsdef
  clear_value s
  have hs0 : s ≤ 0 := by omega
  set J : ℕ := (-s).toNat with hJ
  clear_value J
  have hJs : -s = (J : ℤ) := by omega
  have h2s_pos : (0:ℚ) < (2:ℚ) ^ s := zpow_pos (by norm_num) s
  have hpowJ : (2:ℚ) ^ (-s) = (2:ℚ) ^ (J:ℕ) := by rw [hJs, zpow_natCast]
  have hinv : (2:ℚ) ^ s * (2:ℚ) ^ (-s) = 1 := by
    rw [← zpow_add₀ (by norm_num : (2:ℚ) ≠ 0)]
    simp
  set y : ℚ := q * (2:ℚ) ^ (-s) with hy
  clear_value y
  have hround : round53 q = (2:ℚ) ^ s * rhe y := by
    rw [round53, ← hedef, ← hsdef, ← hy]
  set k : ℤ := a / b with hk
  clear_value k
  set r : ℤ := a % b with hr
  clear_value r
  have hdiv : b * k + r = a := by
    rw [hk, hr]
    exact Int.ediv_add_emod a b
  have hr0 : 0 ≤ r := by
    rw [hr]
    exact Int.emod_nonneg a (by omega)
  have hrb : r < b := by
    rw [hr]
    exact Int.emod_lt_of_pos a hb
  have hdivQ : (b:ℚ) * (k:ℚ) + (r:ℚ) = (a:ℚ) := by exact_mod_cast hdiv
  by_cases hrz : r = 0
  · have hab : (a:ℚ) = (b:ℚ) * (k:ℚ) := by
      rw [← hdivQ, hrz]
      push_cast
      ring
    have hqk : q = (k:ℚ) := by
      rw [hqdef, hab]
      field_simp
    have hyint : y = ((k * 2 ^ J : ℤ) : ℚ) := by
      rw [hy, hqk, hpowJ]
      push_cast
      ring
    have hr53 : round53 q = (k:ℚ) := by
      rw [hround, hyint, rhe_intCast]
      push_cast
      calc (2:ℚ) ^ s * ((k:ℚ) * 2 ^ J)
          = ((2:ℚ) ^ s * (2:ℚ) ^ (J:ℕ)) * (k:ℚ) := by ring
        _ = (k:ℚ) := by rw [← hpowJ, hinv]; ring
    rw [hr53, hqk]
  · have hr1 : 1 ≤ r := by omega
    have hr1Q : (1:ℚ) ≤ (r:ℚ) := by exact_mod_cast hr1
    have hrbQ : (r:ℚ) < (b:ℚ) := by exact_mod_cast hrb
    have hkq : (k:ℚ) < q := by
      rw [hqdef, lt_div_iff hbQ]
      nlinarith
    have hqk1 : q < (k:ℚ) + 1 := by
      rw [hqdef, div_lt_iff hbQ]
      nlinarith
    have hceilq : ⌈q⌉ = k + 1 := by
      rw [Int.ceil_eq_iff]
      constructor
      · push_cast
        linarith
      · push_cast
        linarith
    have h2J : (0:ℚ) < (2:ℚ) ^ (J:ℕ) := by positivity
    have hyle : y ≤ (((k + 1) * 2 ^ J : ℤ) : ℚ) := by
      rw [hy, hpowJ]
      push_cast
      nlinarith
    have hrheub : rhe y ≤ (k + 1) * 2 ^ J := rhe_le y _ hyle
    have hub : round53 q ≤ (k:ℚ) + 1 := by
      rw [hround]
      have hcast : (rhe y : ℚ) ≤ (((k + 1) * 2 ^ J : ℤ) : ℚ) := by
        exact_mod_cast hrheub
      have step : (2:ℚ) ^ s * (rhe y : ℚ)
          ≤ (2:ℚ) ^ s * (((k + 1) * 2 ^ J : ℤ) : ℚ) := by nlinarith
      refine le_trans step (le_of_eq ?_)
      push_cast
      calc (2:ℚ) ^ s * (((k:ℚ) + 1) * 2 ^ J)
          = ((2:ℚ) ^ s * (2:ℚ) ^ (J:ℕ)) * ((k:ℚ) + 1) := by ring
        _ = (k:ℚ) + 1 := by rw [← hpowJ, hinv]; ring
    have hqk_eq : q - (k:ℚ) = (r:ℚ) / (b:ℚ) := by
      rw [hqdef]
      field_simp
      linarith [hdivQ]
    have hlow : (k:ℚ) < round53 q := by
      rw [hround]
      have h1 : y - 1/2 ≤ (rhe y : ℚ) := rhe_ge_sub_half y
      have h2 : (2:ℚ) ^ s * (y - 1/2) ≤ (2:ℚ) ^ s * rhe y := by nlinarith
      have hqq : (2:ℚ) ^ s * (q * (2:ℚ) ^ (-s)) = q := by
        calc (2:ℚ) ^ s * (q * (2:ℚ) ^ (-s))
            = ((2:ℚ) ^ s * (2:ℚ) ^ (-s)) * q := by ring
          _ = q := by rw [hinv]; ring
      have h3 : (2:ℚ) ^ s * (y - 1/2) = q - (2:ℚ) ^ s * (1/2) := by
        rw [hy]
        linear_combination hqq
      have hsmall : (2:ℚ) ^ s * (1/2) < (r:ℚ) / (b:ℚ) := by
        have h2s53 : (2:ℚ) ^ s * (1/2) = (2:ℚ) ^ (e - 53) := by
          rw [hsdef, show e - 53 = (e - 52) + (-1 : ℤ) by ring,
            zpow_add₀ (by norm_num : (2:ℚ) ≠ 0)]
          norm_num
        have hA : (2:ℚ) ^ (e - 53) ≤ q * (2:ℚ) ^ (-(53:ℤ)) := by
          rw [show e - 53 = e + (-(53:ℤ)) by ring,
            zpow_add₀ (by norm_num : (2:ℚ) ≠ 0)]
          exact mul_le_mul_of_nonneg_right h2e
            (le_of_lt (zpow_pos (by norm_num) _))
        have hB : q * (2:ℚ) ^ (-(53:ℤ)) < (r:ℚ) / (b:ℚ) := by
          have hpos53 : (0:ℚ) < (2:ℚ) ^ (53:ℕ) := by positivity
          have hkey : (a:ℚ) < (r:ℚ) * 2 ^ (53:ℕ) := by
            calc (a:ℚ) < 2 ^ (53:ℕ) := ha53Q
              _ = 1 * 2 ^ (53:ℕ) := by ring
              _ ≤ (r:ℚ) * 2 ^ (53:ℕ) :=
                mul_le_mul_of_nonneg_right hr1Q (le_of_lt hpos53)
          have hform : q * (2:ℚ) ^ (-(53:ℤ))
              = (a:ℚ) / ((b:ℚ) * 2 ^ (53:ℕ)) := by
            rw [hqdef, zpow_neg, show ((53:ℤ)) = ((53:ℕ):ℤ) by norm_num,
              zpow_natCast]
            field_simp
          rw [hform, div_lt_div_iff (by positivity) hbQ]
          calc (a:ℚ) * (b:ℚ) < ((r:ℚ) * 2 ^ (53:ℕ)) * (b:ℚ) :=
              mul_lt_mul_of_pos_right hkey hbQ
            _ = (r:ℚ) * ((b:ℚ) * 2 ^ (53:ℕ)) := by ring
        rw [h2s53]
        exact lt_of_le_of_lt hA hB
      linarith
    have hceilr : ⌈round53 q⌉ = k + 1 := by
      generalize hRR : round53 q = R at hub hlow ⊢
      rw [Int.ceil_eq_iff]
      constructor
      · push_cast
        linarith
      · push_cast
        linarith
    rw [hceilr, hceilq]

/-- C3 (amended): for every pair accepted by `start_chunked_upload`,
provided the declared size is below `2 ^ 53` and the exact ceiling fits
in `i32`, the session's total chunk count equals the exact integer
ceiling `⌈total_size / chunk_size⌉`, the expected length validated for
the last chunk index equals `total_size - (total_chunks - 1) *
chunk_size`, and every earlier index expects exactly `chunk_size`
bytes. -/
theorem total_chunks_exact_ceiling
    (max_file_size : ℤ) (upload_id : ℕ) (req : StartUploadRequest)
    (resp : StartUploadResponse)
    (hok : start_chunked_upload max_file_size upload_id req = .ok resp)
    (h53 : req.file_size < 2 ^ 53)
    (hfit : ⌈(req.file_size : ℚ) / (resp.chunk_size : ℚ)⌉ ≤ 2 ^ 31 - 1) :
    resp.total_chunks = ⌈(req.file_size : ℚ) / (resp.chunk_size : ℚ)⌉ ∧
    expectedChunkSize req.file_size resp.chunk_size resp.total_chunks
        (resp.total_chunks - 1)
      = req.file_size - (resp.total_chunks - 1) * resp.chunk_size ∧
    (∀ i : ℤ, 0 ≤ i → i < resp.total_chunks - 1 →
      expectedChunkSize req.file_size resp.chunk_size resp.total_chunks i
        = resp.chunk_size) := by
  unfold start_chunked_upload at hok
  by_cases h1 : max_file_size < req.file_size
  · rw [if_pos h1] at hok
    exact absurd hok (by simp)
  · rw [if_neg h1] at hok
    by_cases h2 : req.file_size ≤ 0
    · rw [if_pos h2] at hok
      exact absurd hok (by simp)
    · rw [if_neg h2] at hok
      by_cases h3 : req.chunk_size.getD DEFAULT_CHUNK_SIZE ≤ 0 ∨
          50 * 1024 * 1024 < req.chunk_size.getD DEFAULT_CHUNK_SIZE
      · rw [if_pos h3] at hok
        exact absurd hok (by simp)
      · rw [if_neg h3] at hok
        simp only [Except.ok.injEq] at hok
        subst hok
        push_neg at h2 h3
        have hcs : 0 < req.chunk_size.getD DEFAULT_CHUNK_SIZE := by omega
        have hceq := ceil_round53_div req.file_size
          (req.chunk_size.getD DEFAULT_CHUNK_SIZE) h2 hcs h53
        simp only at hfit ⊢
        constructor
        · rw [totalChunksF64, hceq]
          have hpos : 0 < ⌈(req.file_size : ℚ) /
              ((req.chunk_size.getD DEFAULT_CHUNK_SIZE : ℤ) : ℚ)⌉ := by
            rw [Int.ceil_pos]
            apply div_pos
            · exact_mod_cast h2
            · exact_mod_cast hcs
          rw [i32sat, min_eq_right hfit, max_eq_right (by omega)]
        · constructor
          · rw [expectedChunkSize, if_pos rfl]
          · intro i hi0 hilt
            rw [expectedChunkSize, if_neg (by omega)]

/-- C3 (counterexample to the claim as stated): the pair
`(total_size, chunk_size) = (5242880000, 1)` is accepted by
`start_chunked_upload` under the default 5 GB size cap, but the stored
`total_chunks` is the saturated `i32` value 2147483647, not the exact
ceiling 5242880000: the `as i32` cast of the `f64` ceiling saturates. -/
theorem total_chunks_i32_saturation_counterexample :
    start_chunked_upload 5242880000 1
        { filename := "f", file_size := 5242880000, mime_type := none,
          chunk_size := some 1, expires_in_hours := none,
          max_downloads := none }
      = .ok { upload_id := 1, chunk_size := 1,
              total_chunks := 2147483647 } ∧
    ⌈((5242880000 : ℤ) : ℚ) / ((1 : ℤ) : ℚ)⌉ = 5242880000 ∧
    (2147483647 : ℤ) ≠ 5242880000 := by
  have hceq := ceil_round53_div 5242880000 1 (by norm_num) (by norm_num)
    (by norm_num)
  have hceil : ⌈((5242880000 : ℤ) : ℚ) / ((1 : ℤ) : ℚ)⌉
      = 5242880000 := by
    norm_num
  refine ⟨?_, hceil, by norm_num⟩
  unfold start_chunked_upload
  rw [if_neg (by norm_num), if_neg (by norm_num), if_neg (by norm_num)]
  simp only [Except.ok.injEq, StartUploadResponse.mk.injEq]
  refine ⟨trivial, by rfl, ?_⟩
  show totalChunksF64 5242880000 ((some (1:ℤ)).getD DEFAULT_CHUNK_SIZE)
      = 2147483647
  rw [show (some (1:ℤ)).getD DEFAULT_CHUNK_SIZE = 1 from rfl]
  rw [totalChunksF64, hceq, hceil]
  rw [i32sat]
  norm_num

/-- Witness for the amended C3 at the spec's scenario: a 12 MiB file
with 5 MiB chunks is accepted and has exactly three chunks. -/
theorem total_chunks_exact_ceiling_witness :
    (start_chunked_upload 5242880000 2
        { filename := "f", file_size := 12582912, mime_type := none,
          chunk_size := some 5242880, expires_in_hours := none,
          max_downloads := none }
      = .ok { upload_id := 2, chunk_size := 5242880,
              total_chunks := totalChunksF64 12582912 5242880 }) ∧
    ((12582912 : ℤ) < 2 ^ 53) ∧
    (⌈((12582912 : ℤ) : ℚ) / ((5242880 : ℤ) : ℚ)⌉ ≤ 2 ^ 31 - 1) ∧
    totalChunksF64 12582912 5242880
      = ⌈((12582912 : ℤ) : ℚ) / ((5242880 : ℤ) : ℚ)⌉ :=
  ⟨by rfl, by norm_num, by
      rw [show ⌈((12582912 : ℤ) : ℚ) / ((5242880 : ℤ) : ℚ)⌉ = 3 by
        rw [Int.ceil_eq_iff] <;> norm_num]
      norm_num,
    (total_chunks_exact_ceiling 5242880000 2
      { filename := "f", file_size := 12582912, mime_type := none,
        chunk_size := some 5242880, expires_in_hours := none,
        max_downloads := none }
      { upload_id := 2, chunk_size := 5242880,
        total_chunks := totalChunksF64 12582912 5242880 }
      (by rfl) (by norm_num)
      (by
        rw [show ⌈((12582912 : ℤ) : ℚ) / ((5242880 : ℤ) : ℚ)⌉ = 3 by
          rw [Int.ceil_eq_iff] <;> norm_num]
        norm_num)).1⟩
